import Mathlib

/-! Shallow embedding of `src/i18n_utils.py`: the catalog-to-wire converter
`convert_translations_to_dict`, the `BaseHandler.get_i18n_js` script-catalog
path, and `I18nMiddleware.__call__`.  `Option` results model Python code that
can raise: `none` is an uncaught exception. -/

namespace I18nUtils

/-- Characters stripped by Python `str.strip()`. -/
def pyWS (c : Char) : Bool :=
  c = ' ' || c = '\t' || c = '\n' || c = '\r' || c = '\x0b' || c = '\x0c'

/-- Python `s.strip()`. -/
def pyStrip (s : String) : String :=
  String.mk (((s.toList.dropWhile pyWS).reverse.dropWhile pyWS).reverse)

/-- Worker for `pySplitChar`, accumulating the current piece in reverse. -/
def splitCharAux (sep : Char) : List Char → List Char → List String
  | [], acc => [String.mk acc.reverse]
  | c :: cs, acc =>
      if c = sep then String.mk acc.reverse :: splitCharAux sep cs []
      else splitCharAux sep cs (c :: acc)

/-- Python `s.split(sep)` for a one-character separator (keeps empty parts). -/
def pySplitChar (s : String) (sep : Char) : List String :=
  splitCharAux sep s.toList []

/-- Python `s.startswith(p)`. -/
def pyStartsWith (s p : String) : Bool :=
  p.toList.isPrefixOf s.toList

/-- Everything after the first occurrence of `sep`. -/
def afterFirstAux : List Char → Char → List Char
  | [], _ => []
  | c :: cs, sep => if c = sep then cs else afterFirstAux cs sep

/-- Python `s.split(sep, 1)[1]`, used only where `sep` is known to occur
(guarded by `startswith` in the source). -/
def afterFirst (s : String) (sep : Char) : String :=
  String.mk (afterFirstAux s.toList sep)

/-- The value of a non-empty all-digit numeral. -/
def parseDigits (cs : List Char) : Option Nat :=
  if cs ≠ [] ∧ cs.all Char.isDigit then
    some (cs.foldl (fun a c => 10 * a + (c.toNat - Char.toNat '0')) 0)
  else none

/-- Python `int(s)`: optional surrounding whitespace, optional sign, decimal
digits; `none` models ValueError. -/
def pyInt (s : String) : Option Int :=
  match (pyStrip s).toList with
  | '+' :: rest => (parseDigits rest).map (fun n => (n : Int))
  | '-' :: rest => (parseDigits rest).map (fun n => -(n : Int))
  | rest => (parseDigits rest).map (fun n => (n : Int))

/-- A key of `js_translations._catalog`: a plain string (a non-pluralized
message) or a (msgid, index) pair (one plural form of a pluralized message);
the index component is kept as the text the code hands to `int()`. -/
inductive CatKey where
  | s (key : String)
  | t (key : String) (idx : String)
deriving DecidableEq

/-- A translation catalog object: `_catalog` as its key/value entries in
iteration order, and `_fallback`. -/
inductive Catalog where
  | base (entries : List (CatKey × String))
  | chain (entries : List (CatKey × String)) (fallback : Catalog)

def Catalog.entries : Catalog → List (CatKey × String)
  | .base es => es
  | .chain es _ => es

/-- The `_fallback` attribute: `None` for `base`, the linked catalog for
`chain`. -/
def Catalog.fallback : Catalog → Option Catalog
  | .base _ => none
  | .chain _ fb => some fb

/-- Build a catalog from its entries and optional fallback. -/
def Catalog.withFallback (es : List (CatKey × String)) : Option Catalog → Catalog
  | none => Catalog.base es
  | some f => Catalog.chain es f

/-- Length of the `_fallback` chain. -/
def Catalog.depth : Catalog → Nat
  | .base _ => 0
  | .chain _ f => f.depth + 1

/-- A value of the output `catalog` mapping: a plain translated string or the
ordered plural-forms list. -/
inductive WireValue where
  | s (v : String)
  | l (vs : List String)
deriving DecidableEq

/-- The `translations_dict` the converter builds. -/
inductive Wire where
  | mk (plural : String) (catalog : List (String × WireValue)) (fallback : Option Wire)

def Wire.plural : Wire → String
  | .mk p _ _ => p

def Wire.catalog : Wire → List (String × WireValue)
  | .mk _ c _ => c

def Wire.fallback : Wire → Option Wire
  | .mk _ _ fb => fb

/-- Number of nested non-null `fallback` levels. -/
def Wire.depth : Wire → Nat
  | .mk _ _ none => 0
  | .mk _ _ (some f) => f.depth + 1

/-- Association-list lookup, first match wins (Python dict `[]` / `in`). -/
def lookupA {α β : Type} [DecidableEq α] : List (α × β) → α → Option β
  | [], _ => none
  | (k, v) :: rest, k' => if k = k' then some v else lookupA rest k'

/-- Python dict item assignment: overwrite in place, append if absent. -/
def setA {α β : Type} [DecidableEq α] : List (α × β) → α → β → List (α × β)
  | [], k, v => [(k, v)]
  | (k', v') :: rest, k, v =>
      if k' = k then (k, v) :: rest else (k', v') :: setA rest k v

/-- Lines 36-39: scan the metadata entry for the last `Plural-Forms:` line;
the loop keeps the stripped remainder after the first colon. -/
def scanPluralLine (m : String) : Option String :=
  (pySplitChar m '\n').foldl
    (fun acc l =>
      if pyStartsWith l "Plural-Forms:" then some (pyStrip (afterFirst l ':')) else acc)
    none

/-- Lines 41-45, one stripped semicolon-separated element: `nplurals=` sets
the count (ValueError from `int()` is `none`), `plural=` replaces the
expression, anything else is ignored. -/
def pluralFoldStep (st : Int × String) (e : String) : Option (Int × String) :=
  if pyStartsWith e "nplurals=" then
    (pyInt (afterFirst e '=')).map (fun n => (n, st.2))
  else if pyStartsWith e "plural=" then
    some (st.1, afterFirst e '=')
  else
    some st

/-- The loop of lines 41-45 over all elements. -/
def pluralFold : List String → Int × String → Option (Int × String)
  | [], st => some st
  | e :: rest, st =>
      match pluralFoldStep st e with
      | none => none
      | some st' => pluralFold rest st'

/-- Lines 34-48: derive `(n_plural, plural)` from the optional metadata entry.
With no `Plural-Forms:` line the defaults `(2, "(n == 1) ? 0 : 1")` apply;
otherwise the remainder is split on semicolons, each element stripped, and the
`nplurals=`/`plural=` elements are read off (`none` models the ValueError
`int()` raises on a malformed nplurals field). -/
def parsePluralForms (m : Option String) : Option (Int × String) :=
  match m.bind scanPluralLine with
  | none => some (2, "(n == 1) ? 0 : 1")
  | some p => pluralFold ((pySplitChar p ';').map pyStrip) (2, p)

/-- Resolution of a Python index into a list of length `len` (negative indices
count from the end); `none` when out of range. -/
def pyPos (len : Nat) (i : Int) : Option Nat :=
  if 0 ≤ i ∧ i < (len : Int) then some i.toNat
  else if -(len : Int) ≤ i ∧ i < 0 then some (len - (-i).toNat)
  else none

/-- Python list item assignment `xs[i] = v`; `none` models IndexError. -/
def pyListSet (xs : List String) (i : Int) (v : String) : Option (List String) :=
  (pyPos xs.length i).map (fun p => xs.set p v)

/-- Lines 55-63, one iteration of the entries loop.  `none` models an uncaught
exception: ValueError from `int(key[1])`, IndexError from an out-of-range
index, or TypeError from item assignment on a plain-string value. -/
def convStep (nPlural : Int) (acc : List (String × WireValue)) :
    CatKey × String → Option (List (String × WireValue))
  | (.s k, v) =>
      if k = "" then some acc
      else some (setA acc k (WireValue.s v))
  | (.t k i, v) =>
      let acc' :=
        match lookupA acc k with
        | none => setA acc k (WireValue.l (List.replicate nPlural.toNat ""))
        | some _ => acc
      match lookupA acc' k with
      | some (WireValue.l xs) =>
          match pyInt i with
          | none => none
          | some j =>
              match pyListSet xs j v with
              | none => none
              | some xs' => some (setA acc' k (WireValue.l xs'))
      | some (WireValue.s _) => none
      | none => none

/-- The loop of lines 55-63 over all entries. -/
def convFold (n : Int) : List (CatKey × String) → List (String × WireValue) →
    Option (List (String × WireValue))
  | [], acc => some acc
  | kv :: rest, acc =>
      match convStep n acc kv with
      | none => none
      | some acc' => convFold n rest acc'

/-- Lines 31-64: `convert_translations_to_dict`.  `none` models an uncaught
exception escaping the converter.  Lines 51-54 convert the fallback before
the entries loop runs; with exceptions as `none` the order of the two
fallible parts does not affect the result. -/
def convert_translations_to_dict : Catalog → Option Wire
  | Catalog.base es =>
      match parsePluralForms (lookupA es (CatKey.s "")) with
      | none => none
      | some np =>
          match convFold np.1 es [] with
          | none => none
          | some cat => some (Wire.mk np.2 cat none)
  | Catalog.chain es f =>
      match parsePluralForms (lookupA es (CatKey.s "")) with
      | none => none
      | some np =>
          match convert_translations_to_dict f with
          | none => none
          | some wf =>
              match convFold np.1 es [] with
              | none => none
              | some cat => some (Wire.mk np.2 cat (some wf))

/-- Modelled from the spec: quality value of an `Accept-Language` parameter
(webob `acceptparse` is an external dependency, not under `src/`).  Spec §4.1
ranks tags "by descending declared quality factor"; qualities are decimals
with at most three fraction digits, kept here in thousandths and clamped
to 1. -/
def parseQuality (s : String) : Option Nat :=
  match pySplitChar s '.' with
  | [ip] => (parseDigits ip.toList).map (fun n => min (n * 1000) 1000)
  | [ip, fp] =>
      if ip.toList ++ fp.toList ≠ [] ∧ (ip.toList ++ fp.toList).all Char.isDigit
          ∧ fp.length ≤ 3 then
        some (min ((ip.toList.foldl (fun a c => 10 * a + (c.toNat - Char.toNat '0')) 0) * 1000
          + (fp.toList.foldl (fun a c => 10 * a + (c.toNat - Char.toNat '0')) 0)
            * 10 ^ (3 - fp.length)) 1000)
      else none
  | _ => none

/-- Modelled from the spec: one comma-separated segment of the header, a tag
with optional parameters; a missing quality means 1, and a malformed segment
is skipped (spec §4.1 "tolerate malformed segments by skipping them"). -/
def parseSegment (seg : String) : Option (String × Nat) :=
  match (pySplitChar seg ';').map pyStrip with
  | [] => none
  | tag :: params =>
      if tag = "" then none
      else
        (params.foldlM
          (fun (cur : Nat) p =>
            if pyStartsWith p "q=" then parseQuality (afterFirst p '=')
            else some cur)
          1000).map (fun q => (tag, q))

/-- Stable descending insertion: a tag goes after every already-ranked tag of
equal or higher quality. -/
def rankedInsert (x : String × Nat) : List (String × Nat) → List (String × Nat)
  | [] => [x]
  | y :: ys => if y.2 < x.2 then x :: y :: ys else y :: rankedInsert x ys

/-- Modelled from the spec: `AcceptLanguage(header).best_matches()` — the
ranked tag list, ordered by descending quality with ties broken by order of
appearance; zero-quality tags are not acceptable and are dropped. -/
def best_matches (header : String) : List String :=
  ((((pySplitChar header ',').filterMap parseSegment).filter
      (fun p => p.2 != 0)).foldl (fun acc x => rankedInsert x acc) []).map Prod.fst

/-- Lines 131-136 of `I18nMiddleware.__call__`: parse the header (the
configured default replaces an absent header), then append the default
language when it is not already ranked. -/
def preferred_languages (header : Option String) (deflang : String) : List String :=
  let parsed := best_matches (header.getD deflang)
  if deflang ∈ parsed then parsed else parsed ++ [deflang]

/-- An available compiled catalog, per language: its entry list.  The on-disk
catalog layout is external to the core. -/
abbrev Avail := List (String × List (CatKey × String))

/-- Modelled from the spec: the tail of a fallback chain — §4.3 chains
catalogs of less-preferred languages "in ranked order, terminating the chain
at the first language with no catalog or at list exhaustion". -/
def load_run (avail : Avail) : List String → Option Catalog
  | [] => none
  | l :: rest =>
      match lookupA avail l with
      | none => none
      | some es => some (Catalog.withFallback es (load_run avail rest))

/-- Modelled from the spec: `gettext.translation` resolution — walk the
ranked list, the first language with a catalog becomes the primary, the rest
of the run becomes its fallback chain; `none` is the IOError a
`fallback=False` load raises when no language resolves. -/
def load_chain (avail : Avail) : List String → Option Catalog
  | [] => none
  | l :: rest =>
      match lookupA avail l with
      | none => load_chain avail rest
      | some es => some (Catalog.withFallback es (load_run avail rest))

/-- The script body `BaseHandler.get_i18n_js` renders: the null template, or
the script template around a serialized catalog. -/
inductive JsBody where
  | null
  | script (w : Wire)

/-- Lines 91-108: `get_i18n_js`.  A failed `jsmessages` load (IOError) is
caught and rendered as the null body; the outer `none` models the uncaught
exception the converter itself may raise. -/
def get_i18n_js (avail : Avail) (langs : List String) : Option JsBody :=
  match load_chain avail langs with
  | none => some JsBody.null
  | some c => (convert_translations_to_dict c).map JsBody.script

/-- Lines 137-139: the `messages` load with `fallback=True` — a no-op
catalog when no language resolves. -/
def load_messages (avail : Avail) (langs : List String) : Catalog :=
  match load_chain avail langs with
  | some c => c
  | none => Catalog.base []

/-- A WSGI environ value: a header string, the installed translation, or the
published language list. -/
inductive EnvVal where
  | str (s : String)
  | translation (c : Catalog)
  | langs (ls : List String)

/-- Line 133: `environ.get("HTTP_ACCEPT_LANGUAGE", self.default_language)` —
the header when present. -/
def getHeader (environ : List (String × EnvVal)) : Option String :=
  match lookupA environ "HTTP_ACCEPT_LANGUAGE" with
  | some (EnvVal.str h) => some h
  | _ => none

/-- Lines 131-142: the environ as `I18nMiddleware.__call__` leaves it before
invoking the wrapped app: the two context keys are set, nothing else. -/
def middleware_env (avail : Avail) (deflang : String)
    (environ : List (String × EnvVal)) : List (String × EnvVal) :=
  let langs := preferred_languages (getHeader environ) deflang
  let tr := load_messages avail langs
  setA (setA environ "active_translation" (EnvVal.translation tr))
    "preferred_languages" (EnvVal.langs langs)

/-- Lines 131-144: the middleware call — publish the two keys, then return
the wrapped app's result unchanged. -/
def middleware_call {α : Type} (avail : Avail) (deflang : String)
    (app : List (String × EnvVal) → α) (environ : List (String × EnvVal)) : α :=
  app (middleware_env avail deflang environ)

/-- The plural table bases: first components of the pair keys. -/
def tupleBases (l : List (CatKey × String)) : List String :=
  l.filterMap (fun kv =>
    match kv.1 with
    | CatKey.t k _ => some k
    | CatKey.s _ => none)

/-- No message id occurs both as a plain key and as a pair-key base. -/
def noCollision (l : List (CatKey × String)) : Bool :=
  l.all (fun kv =>
    match kv.1 with
    | CatKey.s k => decide (k ∉ tupleBases l)
    | CatKey.t _ _ => true)

/-- A key the entries loop handles without raising, for plural count `n`:
pair keys need an index `int()` accepts that is in range for a list of
length `n.toNat`. -/
def entryOk (n : Int) : CatKey → Bool
  | CatKey.s _ => true
  | CatKey.t _ i =>
      match pyInt i with
      | none => false
      | some j => (pyPos n.toNat j).isSome

/-- Catalog data the converter is total on: parseable plural metadata,
every pair-key index numeric and in range, no plain/pair base collision,
recursively down the fallback chain. -/
def catalogWellFormed : Catalog → Bool
  | .base es =>
      match parsePluralForms (lookupA es (CatKey.s "")) with
      | none => false
      | some np => es.all (fun kv => entryOk np.1 kv.1) && noCollision es
  | .chain es f =>
      (match parsePluralForms (lookupA es (CatKey.s "")) with
       | none => false
       | some np => es.all (fun kv => entryOk np.1 kv.1) && noCollision es)
      && catalogWellFormed f

/-- The list position a pair key's textual index resolves to, for plural
count `n`. -/
def posOfIdx (n : Nat) (i : String) : Option Nat :=
  (pyInt i).bind (pyPos n)

/-- Two catalog keys whose loop iterations commute: a plain key and a pair
key must have different bases, and two pair keys of the same base must
resolve to different positions. -/
def keyCompat (n : Nat) : CatKey → CatKey → Prop
  | CatKey.s _, CatKey.s _ => True
  | CatKey.s k, CatKey.t k' _ => k ≠ k'
  | CatKey.t k _, CatKey.s k' => k ≠ k'
  | CatKey.t k i, CatKey.t k' i' => k = k' → posOfIdx n i ≠ posOfIdx n i'

instance keyCompatDec (n : Nat) : ∀ a b : CatKey, Decidable (keyCompat n a b)
  | CatKey.s _, CatKey.s _ => inferInstanceAs (Decidable True)
  | CatKey.s k, CatKey.t k' _ => inferInstanceAs (Decidable (k ≠ k'))
  | CatKey.t k _, CatKey.s k' => inferInstanceAs (Decidable (k ≠ k'))
  | CatKey.t k i, CatKey.t k' i' =>
      inferInstanceAs (Decidable (k = k' → posOfIdx n i ≠ posOfIdx n i'))

/-- Output catalog mappings that agree as maps (Python dict content
equality, key order disregarded). -/
def accEq (a b : List (String × WireValue)) : Prop :=
  ∀ k, lookupA a k = lookupA b k

/-- Lifts `accEq` to the loop's fallible state. -/
def optAccEq : Option (List (String × WireValue)) → Option (List (String × WireValue)) → Prop
  | none, none => True
  | some a, some b => accEq a b
  | _, _ => False

/-- Conversion outcomes that agree: both raise, or both produce wire
catalogs with equal plural expressions, map-equal catalog mappings and equal
fallbacks. -/
def wireOptEquiv : Option Wire → Option Wire → Prop
  | none, none => True
  | some a, some b =>
      a.plural = b.plural ∧ (∀ k, lookupA a.catalog k = lookupA b.catalog k)
        ∧ a.fallback = b.fallback
  | _, _ => False

/-- Every plural-forms list in the loop state has the metadata's length. -/
def listsLen (n : Nat) (acc : List (String × WireValue)) : Prop :=
  ∀ k xs, lookupA acc k = some (WireValue.l xs) → xs.length = n

/-- Sequencing of fallible loop steps (the shape of `convFold`'s match). -/
def optThen (o : Option (List (String × WireValue)))
    (f : List (String × WireValue) → Option (List (String × WireValue))) :
    Option (List (String × WireValue)) :=
  match o with
  | none => none
  | some a => f a

/-- The value stored under a pair key's base after one loop iteration, as a
function of the value currently there (`none` result = the step raises). -/
def tupleNew (n : Int) (i v : String) : Option WireValue → Option WireValue
  | some (WireValue.s _) => none
  | some (WireValue.l xs) =>
      match pyInt i with
      | none => none
      | some j => (pyListSet xs j v).map WireValue.l
  | none =>
      match pyInt i with
      | none => none
      | some j => (pyListSet (List.replicate n.toNat "") j v).map WireValue.l

/-- The scenario catalog of C7: one plain entry, one two-form pluralized
entry, metadata with the default plural rule. -/
def catalogC7 : Catalog :=
  Catalog.base
    [(CatKey.s "", "Plural-Forms: nplurals=2; plural=(n == 1) ? 0 : 1\n"),
     (CatKey.s "Hello", "Cześć"),
     (CatKey.t "Cart" "0", "koszyk"),
     (CatKey.t "Cart" "1", "koszyki")]

/-- A catalog whose Plural-Forms line lacks the `plural=` sub-field. -/
def catalogNoPluralField : Catalog :=
  Catalog.base [(CatKey.s "", "Plural-Forms: nplurals=3")]

/-- A catalog with a non-numeric plural index. -/
def catalogBadIdx : Catalog :=
  Catalog.base [(CatKey.t "Cart" "x", "koszyk")]

/-- A catalog with an out-of-range plural index (nplurals defaults to 2). -/
def catalogBigIdx : Catalog :=
  Catalog.base [(CatKey.t "Cart" "5", "koszyk")]

/-- A message id occurring plain before its pluralized forms. -/
def catalogPlainFirst : Catalog :=
  Catalog.base [(CatKey.s "Cart", "carts"), (CatKey.t "Cart" "0", "koszyk")]

/-- The same entries as `catalogPlainFirst` in the other iteration order. -/
def catalogPluralFirst : Catalog :=
  Catalog.base [(CatKey.t "Cart" "0", "koszyk"), (CatKey.s "Cart", "carts")]

/-- A two-link fallback chain. -/
def catalogChain2 : Catalog :=
  Catalog.chain [] (Catalog.chain [] (Catalog.base []))

/-- The entries of the C7 scenario without metadata. -/
def entriesW1 : List (CatKey × String) :=
  [(CatKey.s "Hello", "Cześć"), (CatKey.t "Cart" "0", "koszyk"),
   (CatKey.t "Cart" "1", "koszyki")]

/-- A permutation of `entriesW1`. -/
def entriesW2 : List (CatKey × String) :=
  [(CatKey.t "Cart" "1", "koszyki"), (CatKey.s "Hello", "Cześć"),
   (CatKey.t "Cart" "0", "koszyk")]

/-! Shared lemmas about the association-list model. -/

theorem lookupA_setA {α β : Type} [DecidableEq α] (l : List (α × β)) (k : α) (v : β)
    (k' : α) : lookupA (setA l k v) k' = if k = k' then some v else lookupA l k' := by
  induction l with
  | nil => simp [setA, lookupA]
  | cons kv rest ih =>
      obtain ⟨k0, v0⟩ := kv
      by_cases h0 : k0 = k <;> by_cases h1 : k0 = k'
      · subst h0; subst h1
        simp [setA, lookupA]
      · subst h0
        simp [setA, lookupA, h1]
      · subst h1
        have hk : ¬k = k0 := fun hh => h0 hh.symm
        simp [setA, lookupA, h0, hk]
      · simp [setA, lookupA, h0, h1, ih]

/-! Plural-Forms parsing lemmas. -/

theorem scanFold_none : ∀ ls : List String,
    (∀ l ∈ ls, pyStartsWith l "Plural-Forms:" = false) →
    ls.foldl (fun acc l =>
      if pyStartsWith l "Plural-Forms:" then some (pyStrip (afterFirst l ':')) else acc)
      none = none
  | [], _ => rfl
  | l :: rest, h => by
      have h1 := h l (by simp)
      simp only [List.foldl_cons, h1, Bool.false_eq_true, if_false]
      exact scanFold_none rest fun x hx => h x (by simp [hx])

theorem scanPluralLine_eq_none (m : String)
    (h : ∀ l ∈ pySplitChar m '\n', pyStartsWith l "Plural-Forms:" = false) :
    scanPluralLine m = none :=
  scanFold_none (pySplitChar m '\n') h

theorem pluralFoldStep_snd (st : Int × String) (e : String) (st' : Int × String)
    (he : pyStartsWith e "plural=" = false) (hs : pluralFoldStep st e = some st') :
    st'.2 = st.2 := by
  unfold pluralFoldStep at hs
  by_cases hn : pyStartsWith e "nplurals=" = true
  · rw [if_pos hn] at hs
    cases hpi : pyInt (afterFirst e '=') with
    | none => rw [hpi] at hs; cases hs
    | some n =>
        rw [hpi] at hs
        simp only [Option.map_some'] at hs
        cases hs; rfl
  · rw [if_neg hn, if_neg (by simp [he])] at hs
    cases hs; rfl

theorem pluralFold_snd : ∀ (es : List String) (st np : Int × String),
    (∀ e ∈ es, pyStartsWith e "plural=" = false) →
    pluralFold es st = some np → np.2 = st.2
  | [], st, np, _, h => by
      simp only [pluralFold, Option.some.injEq] at h
      rw [← h]
  | e :: rest, st, np, hall, h => by
      simp only [pluralFold] at h
      cases hs : pluralFoldStep st e with
      | none => rw [hs] at h; cases h
      | some st' =>
          rw [hs] at h
          have h2 := pluralFold_snd rest st' np (fun x hx => hall x (by simp [hx])) h
          rw [h2, pluralFoldStep_snd st e st' (hall e (by simp)) hs]

theorem parsePluralForms_some (m : String) :
    parsePluralForms (some m) =
      match scanPluralLine m with
      | none => some (2, "(n == 1) ? 0 : 1")
      | some p => pluralFold ((pySplitChar p ';').map pyStrip) (2, p) :=
  rfl

theorem convert_base_eq (es : List (CatKey × String)) :
    convert_translations_to_dict (Catalog.base es) =
      match parsePluralForms (lookupA es (CatKey.s "")) with
      | none => none
      | some np =>
          match convFold np.1 es [] with
          | none => none
          | some cat => some (Wire.mk np.2 cat none) :=
  rfl

theorem convert_chain_eq (es : List (CatKey × String)) (f : Catalog) :
    convert_translations_to_dict (Catalog.chain es f) =
      match parsePluralForms (lookupA es (CatKey.s "")) with
      | none => none
      | some np =>
          match convert_translations_to_dict f with
          | none => none
          | some wf =>
              match convFold np.1 es [] with
              | none => none
              | some cat => some (Wire.mk np.2 cat (some wf)) :=
  rfl

/-- Claim C1 (amended): the defaults `nplurals=2`, `(n == 1) ? 0 : 1` apply
exactly when the metadata entry is absent or contains no `Plural-Forms:`
line; when the line is present but its `plural=` sub-field is missing, the
emitted plural expression is the line's stripped remainder, not the default
(the count alone falls back to 2 when `nplurals=` is missing), and in every
case the emitted expression is whatever the parse produced. -/
theorem pluralForms_default_scope :
    parsePluralForms none = some (2, "(n == 1) ? 0 : 1")
    ∧ (∀ m, (∀ l ∈ pySplitChar m '\n', pyStartsWith l "Plural-Forms:" = false) →
        parsePluralForms (some m) = some (2, "(n == 1) ? 0 : 1"))
    ∧ (∀ m r np, scanPluralLine m = some r →
        (∀ e ∈ (pySplitChar r ';').map pyStrip, pyStartsWith e "plural=" = false) →
        parsePluralForms (some m) = some np → np.2 = r)
    ∧ (∀ c w n p, parsePluralForms (lookupA c.entries (CatKey.s "")) = some (n, p) →
        convert_translations_to_dict c = some w → w.plural = p) := by
  refine ⟨rfl, ?_, ?_, ?_⟩
  · intro m hm
    rw [parsePluralForms_some, scanPluralLine_eq_none m hm]
  · intro m r np hscan hall hp
    rw [parsePluralForms_some, hscan] at hp
    exact pluralFold_snd _ (2, r) np hall hp
  · intro c w n p hparse hconv
    cases c with
    | base es =>
        rw [convert_base_eq] at hconv
        rw [show lookupA (Catalog.entries (Catalog.base es)) (CatKey.s "")
              = lookupA es (CatKey.s "") from rfl] at hparse
        rw [hparse] at hconv
        dsimp only at hconv
        cases hcf : convFold n es [] with
        | none => rw [hcf] at hconv; cases hconv
        | some cat => rw [hcf] at hconv; cases hconv; rfl
    | chain es f =>
        rw [convert_chain_eq] at hconv
        rw [show lookupA (Catalog.entries (Catalog.chain es f)) (CatKey.s "")
              = lookupA es (CatKey.s "") from rfl] at hparse
        rw [hparse] at hconv
        dsimp only at hconv
        cases hcw : convert_translations_to_dict f with
        | none => rw [hcw] at hconv; cases hconv
        | some wf =>
            rw [hcw] at hconv
            cases hcf : convFold n es [] with
            | none => rw [hcf] at hconv; cases hconv
            | some cat => rw [hcf] at hconv; cases hconv; rfl

theorem pluralForms_default_scope_witness :
    parsePluralForms (some "Language: pl") = some (2, "(n == 1) ? 0 : 1") :=
  pluralForms_default_scope.2.1 "Language: pl" (by decide)

/-- Claim C1 counterexample: a `Plural-Forms:` line with no `plural=`
sub-field does not produce the defaults — the count parses as 3 and the
expression stays the raw remainder `nplurals=3`. -/
theorem pluralForms_unparseable_not_default :
    parsePluralForms (some "Plural-Forms: nplurals=3") = some (3, "nplurals=3")
    ∧ convert_translations_to_dict catalogNoPluralField
        = some (Wire.mk "nplurals=3" [] none)
    ∧ ¬((3 : Int) = 2 ∧ "nplurals=3" = "(n == 1) ? 0 : 1") :=
  ⟨rfl, rfl, by decide⟩

/-- Claim C6: the documented Plural-Forms header parses to count 3 and the
expression with the trailing semicolon stripped, and the converter emits that
expression. -/
theorem pluralForms_header_scenario :
    parsePluralForms
        (some "Plural-Forms: nplurals=3; plural=(n%10==1 && n%100!=11) ? 0 : 2;")
      = some (3, "(n%10==1 && n%100!=11) ? 0 : 2")
    ∧ convert_translations_to_dict (Catalog.base
        [(CatKey.s "", "Plural-Forms: nplurals=3; plural=(n%10==1 && n%100!=11) ? 0 : 2;")])
      = some (Wire.mk "(n%10==1 && n%100!=11) ? 0 : 2" [] none) :=
  ⟨rfl, rfl⟩

/-- Claim C7: the two-entry scenario converts to the expected mapping — the
plain key is copied, the pair keys fill the two plural slots, the metadata
key is excluded. -/
theorem convert_catalog_scenario :
    convert_translations_to_dict catalogC7 =
      some (Wire.mk "(n == 1) ? 0 : 1"
        [("Hello", WireValue.s "Cześć"), ("Cart", WireValue.l ["koszyk", "koszyki"])]
        none) :=
  rfl

/-- Claim C2 counterexample: the converter is not total — a pluralized entry
with a non-numeric index, and one with an out-of-range index, both raise an
uncaught exception (modelled `none`) instead of being rejected or clamped by
a documented policy. -/
theorem convert_raises_on_bad_plural_index :
    convert_translations_to_dict catalogBadIdx = none
    ∧ convert_translations_to_dict catalogBigIdx = none :=
  ⟨rfl, rfl⟩

/-- Claim C8 counterexample: two catalogs that are equal as mappings (entry
lists permutations of each other, same metadata and fallback) need not
convert equally — iterating the plain entry first raises on the later pair
entry, while the other order succeeds. -/
theorem convert_entry_order_sensitive :
    catalogPlainFirst.entries.Perm catalogPluralFirst.entries
    ∧ catalogPlainFirst.fallback = catalogPluralFirst.fallback
    ∧ convert_translations_to_dict catalogPlainFirst = none
    ∧ convert_translations_to_dict catalogPluralFirst
        = some (Wire.mk "(n == 1) ? 0 : 1" [("Cart", WireValue.s "carts")] none) :=
  ⟨by decide, rfl, rfl, rfl⟩

/-- Claim C3: the published language list always contains the configured
default; when the parsed ranking does not already contain it, it is appended
at the end. -/
theorem preferred_languages_contains_default (h : Option String) (d : String) :
    d ∈ preferred_languages h d
    ∧ (d ∉ best_matches (h.getD d) →
        preferred_languages h d = best_matches (h.getD d) ++ [d]) := by
  constructor
  · by_cases hd : d ∈ best_matches (h.getD d)
    · simp only [preferred_languages]
      rw [if_pos hd]
      exact hd
    · simp only [preferred_languages]
      rw [if_neg hd]
      simp
  · intro hd
    simp only [preferred_languages]
    rw [if_neg hd]

theorem preferred_languages_contains_default_witness :
    "en" ∉ best_matches "pl"
    ∧ preferred_languages (some "pl") "en" = best_matches "pl" ++ ["en"] :=
  ⟨by decide, (preferred_languages_contains_default (some "pl") "en").2 (by decide)⟩

theorem load_chain_none (avail : Avail) : ∀ langs : List String,
    (∀ l ∈ langs, lookupA avail l = none) → load_chain avail langs = none
  | [], _ => rfl
  | l :: rest, h => by
      have h1 := h l (by simp)
      simp only [load_chain, h1]
      exact load_chain_none avail rest fun x hx => h x (by simp [hx])

/-- Claim C4: when no preferred language has a jsmessages catalog, the
loader signals the distinguishable no-catalog condition (`none`, the IOError
of a `fallback=False` load) and `get_i18n_js` renders the null body — not an
error and not a serialized catalog. -/
theorem get_i18n_js_null_when_no_catalog (avail : Avail) (langs : List String)
    (h : ∀ l ∈ langs, lookupA avail l = none) :
    load_chain avail langs = none ∧ get_i18n_js avail langs = some JsBody.null := by
  have hc := load_chain_none avail langs h
  refine ⟨hc, ?_⟩
  simp only [get_i18n_js, hc]

theorem get_i18n_js_null_witness :
    load_chain [("pl", [])] ["ja", "en"] = none
    ∧ get_i18n_js [("pl", [])] ["ja", "en"] = some JsBody.null :=
  get_i18n_js_null_when_no_catalog [("pl", [])] ["ja", "en"] (by decide)

/-- Claim C5: a successful conversion of an N-deep fallback chain nests
exactly N non-null fallback levels; the attached fallback is the conversion
of the chained catalog, and the innermost level has a null fallback. -/
theorem convert_preserves_fallback_depth : ∀ (c : Catalog) (w : Wire),
    convert_translations_to_dict c = some w →
    Wire.depth w = Catalog.depth c
    ∧ Wire.fallback w = (Catalog.fallback c).bind convert_translations_to_dict
  | Catalog.base es, w, h => by
      rw [convert_base_eq] at h
      cases hp : parsePluralForms (lookupA es (CatKey.s "")) with
      | none => rw [hp] at h; cases h
      | some np =>
          rw [hp] at h
          dsimp only at h
          cases hcf : convFold np.1 es [] with
          | none => rw [hcf] at h; cases h
          | some cat =>
              rw [hcf] at h
              cases h
              exact ⟨rfl, rfl⟩
  | Catalog.chain es f, w, h => by
      rw [convert_chain_eq] at h
      cases hp : parsePluralForms (lookupA es (CatKey.s "")) with
      | none => rw [hp] at h; cases h
      | some np =>
          rw [hp] at h
          dsimp only at h
          cases hcw : convert_translations_to_dict f with
          | none => rw [hcw] at h; cases h
          | some wf =>
              rw [hcw] at h
              cases hcf : convFold np.1 es [] with
              | none => rw [hcf] at h; cases h
              | some cat =>
                  rw [hcf] at h
                  cases h
                  have ih := convert_preserves_fallback_depth f wf hcw
                  refine ⟨?_, ?_⟩
                  · show Wire.depth (Wire.mk np.2 cat (some wf))
                        = Catalog.depth (Catalog.chain es f)
                    simp only [Wire.depth, Catalog.depth, ih.1]
                  · dsimp only [Wire.fallback, Catalog.fallback, Option.bind]
                    exact hcw.symm

theorem convert_preserves_fallback_depth_witness :
    Wire.depth (Wire.mk "(n == 1) ? 0 : 1" []
        (some (Wire.mk "(n == 1) ? 0 : 1" []
          (some (Wire.mk "(n == 1) ? 0 : 1" [] none)))))
      = Catalog.depth catalogChain2
    ∧ Wire.fallback (Wire.mk "(n == 1) ? 0 : 1" []
        (some (Wire.mk "(n == 1) ? 0 : 1" []
          (some (Wire.mk "(n == 1) ? 0 : 1" [] none)))))
      = (Catalog.fallback catalogChain2).bind convert_translations_to_dict :=
  convert_preserves_fallback_depth catalogChain2 _ rfl

/-- Claim C9: header `pl,en;q=0.5` with default `en` ranks to exactly
`["pl", "en"]` — descending quality, and the already-present default is not
appended twice. -/
theorem preferred_languages_scenario :
    best_matches "pl,en;q=0.5" = ["pl", "en"]
    ∧ preferred_languages (some "pl,en;q=0.5") "en" = ["pl", "en"] :=
  ⟨rfl, rfl⟩

/-- Claim C10: the middleware only sets the two context keys (both present
in the environ the wrapped app receives), leaves every other environ entry
unchanged, and passes the wrapped app's return value through unmodified. -/
theorem middleware_frame {α : Type} (avail : Avail) (deflang : String)
    (app : List (String × EnvVal) → α) (environ : List (String × EnvVal)) :
    middleware_call avail deflang app environ
        = app (middleware_env avail deflang environ)
    ∧ (∀ k, k ≠ "active_translation" → k ≠ "preferred_languages" →
        lookupA (middleware_env avail deflang environ) k = lookupA environ k)
    ∧ (lookupA (middleware_env avail deflang environ) "active_translation").isSome
        = true
    ∧ (lookupA (middleware_env avail deflang environ) "preferred_languages").isSome
        = true := by
  refine ⟨rfl, ?_, ?_, ?_⟩
  · intro k h1 h2
    have g1 : ¬"active_translation" = k := fun hh => h1 hh.symm
    have g2 : ¬"preferred_languages" = k := fun hh => h2 hh.symm
    simp only [middleware_env, lookupA_setA, if_neg g1, if_neg g2]
  · simp only [middleware_env, lookupA_setA]
    simp
  · simp only [middleware_env, lookupA_setA]
    simp

/-! Totality of the converter on well-formed catalogs. -/

theorem tupleBases_cons_s (k v : String) (rest : List (CatKey × String)) :
    tupleBases ((CatKey.s k, v) :: rest) = tupleBases rest :=
  rfl

theorem tupleBases_cons_t (k i v : String) (rest : List (CatKey × String)) :
    tupleBases ((CatKey.t k i, v) :: rest) = k :: tupleBases rest :=
  rfl

theorem noCollision_spec (l : List (CatKey × String)) (h : noCollision l = true) :
    ∀ k v', (CatKey.s k, v') ∈ l → k ∉ tupleBases l := by
  intro k v' hmem
  have hh := List.all_eq_true.mp h _ hmem
  exact of_decide_eq_true hh

theorem entryOk_t (n : Int) (k i : String) (h : entryOk n (CatKey.t k i) = true) :
    ∃ j, pyInt i = some j ∧ (pyPos n.toNat j).isSome = true := by
  have h' : (match pyInt i with
      | none => false
      | some j => (pyPos n.toNat j).isSome) = true := h
  cases hpi : pyInt i with
  | none => rw [hpi] at h'; cases h'
  | some j =>
      rw [hpi] at h'
      exact ⟨j, rfl, h'⟩

theorem pyListSet_isSome (xs : List String) (j : Int) (v : String)
    (h : (pyPos xs.length j).isSome = true) :
    ∃ xs', pyListSet xs j v = some xs' ∧ xs'.length = xs.length := by
  unfold pyListSet
  cases hp : pyPos xs.length j with
  | none => rw [hp] at h; cases h
  | some pos => exact ⟨xs.set pos v, rfl, by simp⟩

theorem convFold_isSome (n : Int) : ∀ (l : List (CatKey × String))
    (acc : List (String × WireValue)),
    (∀ kv ∈ l, entryOk n kv.1 = true) →
    (∀ k v', (CatKey.s k, v') ∈ l → k ∉ tupleBases l) →
    listsLen n.toNat acc →
    (∀ k, k ∈ tupleBases l → ∀ s, lookupA acc k ≠ some (WireValue.s s)) →
    (convFold n l acc).isSome = true
  | [], acc, _, _, _, _ => rfl
  | (CatKey.s k, v) :: rest, acc, hok, hcol, hlen, hstr => by
      have hok' : ∀ kv ∈ rest, entryOk n kv.1 = true :=
        fun kv hkv => hok kv (List.mem_cons_of_mem _ hkv)
      have hcol' : ∀ k2 v2, (CatKey.s k2, v2) ∈ rest → k2 ∉ tupleBases rest :=
        fun k2 v2 h2 => hcol k2 v2 (List.mem_cons_of_mem _ h2)
      simp only [convFold, convStep]
      by_cases hk : k = ""
      · rw [if_pos hk]
        exact convFold_isSome n rest acc hok' hcol' hlen
          (fun k2 h2 s hx => hstr k2 h2 s hx)
      · rw [if_neg hk]
        have hlen' : listsLen n.toNat (setA acc k (WireValue.s v)) := by
          intro k2 xs hx
          rw [lookupA_setA] at hx
          by_cases hk2 : k = k2
          · rw [if_pos hk2] at hx
            exact absurd hx (by simp)
          · rw [if_neg hk2] at hx
            exact hlen k2 xs hx
        have hstr' : ∀ k2, k2 ∈ tupleBases rest → ∀ s,
            lookupA (setA acc k (WireValue.s v)) k2 ≠ some (WireValue.s s) := by
          intro k2 h2 s hx
          rw [lookupA_setA] at hx
          by_cases hk2 : k = k2
          · exact hcol k v (by simp) (hk2 ▸ h2)
          · rw [if_neg hk2] at hx
            exact hstr k2 h2 s hx
        exact convFold_isSome n rest (setA acc k (WireValue.s v)) hok' hcol' hlen' hstr'
  | (CatKey.t k i, v) :: rest, acc, hok, hcol, hlen, hstr => by
      have hok' : ∀ kv ∈ rest, entryOk n kv.1 = true :=
        fun kv hkv => hok kv (List.mem_cons_of_mem _ hkv)
      have hcol' : ∀ k2 v2, (CatKey.s k2, v2) ∈ rest → k2 ∉ tupleBases rest := by
        intro k2 v2 h2 hmem
        exact hcol k2 v2 (List.mem_cons_of_mem _ h2)
          (by rw [tupleBases_cons_t]; exact List.mem_cons_of_mem _ hmem)
      obtain ⟨j, hpi, hpos⟩ := entryOk_t n k i (hok (CatKey.t k i, v) (by simp))
      simp only [convFold, convStep]
      cases hla : lookupA acc k with
      | none =>
          dsimp only
          rw [lookupA_setA, if_pos rfl]
          dsimp only
          rw [hpi]
          dsimp only
          obtain ⟨xs', hset, hlenxs⟩ := pyListSet_isSome (List.replicate n.toNat "") j v
            (by rw [List.length_replicate]; exact hpos)
          rw [hset]
          dsimp only
          have hlen2 : listsLen n.toNat
              (setA (setA acc k (WireValue.l (List.replicate n.toNat ""))) k
                (WireValue.l xs')) := by
            intro k2 xs hx
            rw [lookupA_setA] at hx
            by_cases hk2 : k = k2
            · rw [if_pos hk2] at hx
              cases hx
              rw [hlenxs, List.length_replicate]
            · rw [if_neg hk2, lookupA_setA, if_neg hk2] at hx
              exact hlen k2 xs hx
          have hstr2 : ∀ k2, k2 ∈ tupleBases rest → ∀ s,
              lookupA (setA (setA acc k (WireValue.l (List.replicate n.toNat ""))) k
                (WireValue.l xs')) k2 ≠ some (WireValue.s s) := by
            intro k2 h2 s hx
            rw [lookupA_setA] at hx
            by_cases hk2 : k = k2
            · rw [if_pos hk2] at hx
              exact absurd hx (by simp)
            · rw [if_neg hk2, lookupA_setA, if_neg hk2] at hx
              exact hstr k2 (by rw [tupleBases_cons_t]; exact List.mem_cons_of_mem _ h2)
                s hx
          exact convFold_isSome n rest _ hok' hcol' hlen2 hstr2
      | some w =>
          cases w with
          | s sv =>
              exact absurd hla
                (hstr k (by rw [tupleBases_cons_t]; exact List.mem_cons_self _ _) sv)
          | l xs =>
              rw [hla, hpi]
              dsimp only
              obtain ⟨xs', hset, hlenxs⟩ := pyListSet_isSome xs j v
                (by rw [hlen k xs hla]; exact hpos)
              rw [hset]
              dsimp only
              have hlen2 : listsLen n.toNat (setA acc k (WireValue.l xs')) := by
                intro k2 xs2 hx
                rw [lookupA_setA] at hx
                by_cases hk2 : k = k2
                · rw [if_pos hk2] at hx
                  cases hx
                  rw [hlenxs]
                  exact hlen k xs hla
                · rw [if_neg hk2] at hx
                  exact hlen k2 xs2 hx
              have hstr2 : ∀ k2, k2 ∈ tupleBases rest → ∀ s,
                  lookupA (setA acc k (WireValue.l xs')) k2 ≠ some (WireValue.s s) := by
                intro k2 h2 s hx
                rw [lookupA_setA] at hx
                by_cases hk2 : k = k2
                · rw [if_pos hk2] at hx
                  exact absurd hx (by simp)
                · rw [if_neg hk2] at hx
                  exact hstr k2 (by rw [tupleBases_cons_t]; exact List.mem_cons_of_mem _ h2)
                    s hx
              exact convFold_isSome n rest _ hok' hcol' hlen2 hstr2

/-- Claim C2 (amended): exceptions do escape the converter on defective
catalog data — a pluralized entry with a non-numeric or out-of-range index
raises (see the counterexample) — but the converter is total on well-formed
catalogs: parseable plural metadata, every pair-key index numeric and in
range, and no plain/pair base-key collision, recursively along the fallback
chain.  The middleware itself raises nothing for translation faults. -/
theorem convert_total_on_wellformed : ∀ c : Catalog,
    catalogWellFormed c = true → (convert_translations_to_dict c).isSome = true
  | Catalog.base es, h => by
      simp only [catalogWellFormed] at h
      cases hp : parsePluralForms (lookupA es (CatKey.s "")) with
      | none => rw [hp] at h; cases h
      | some np =>
          rw [hp] at h
          dsimp only at h
          rw [Bool.and_eq_true] at h
          obtain ⟨hall, hcol⟩ := h
          rw [convert_base_eq, hp]
          dsimp only
          have hsome := convFold_isSome np.1 es []
            (fun kv hkv => List.all_eq_true.mp hall kv hkv)
            (noCollision_spec es hcol)
            (fun k2 xs hx => Option.noConfusion hx)
            (fun k2 _ s hx => Option.noConfusion hx)
          cases hcf : convFold np.1 es [] with
          | none => rw [hcf] at hsome; cases hsome
          | some cat => rfl
  | Catalog.chain es f, h => by
      simp only [catalogWellFormed, Bool.and_eq_true] at h
      obtain ⟨h1, h2⟩ := h
      cases hp : parsePluralForms (lookupA es (CatKey.s "")) with
      | none => rw [hp] at h1; cases h1
      | some np =>
          rw [hp] at h1
          dsimp only at h1
          rw [Bool.and_eq_true] at h1
          obtain ⟨hall, hcol⟩ := h1
          have hf := convert_total_on_wellformed f h2
          rw [convert_chain_eq, hp]
          dsimp only
          cases hcw : convert_translations_to_dict f with
          | none => rw [hcw] at hf; cases hf
          | some wf =>
              dsimp only
              have hsome := convFold_isSome np.1 es []
                (fun kv hkv => List.all_eq_true.mp hall kv hkv)
                (noCollision_spec es hcol)
                (fun k2 xs hx => Option.noConfusion hx)
                (fun k2 _ s hx => Option.noConfusion hx)
              cases hcf : convFold np.1 es [] with
              | none => rw [hcf] at hsome; cases hsome
              | some cat => rfl

theorem convert_total_on_wellformed_witness :
    catalogWellFormed catalogC7 = true
    ∧ (convert_translations_to_dict catalogC7).isSome = true :=
  ⟨by decide, convert_total_on_wellformed catalogC7 (by decide)⟩

theorem middleware_frame_witness :
    lookupA (middleware_env [] "en" [("foo", EnvVal.str "bar")]) "foo"
      = some (EnvVal.str "bar") := by
  have h := (middleware_frame [] "en" (fun e => e) [("foo", EnvVal.str "bar")]).2.1
    "foo" (by decide) (by decide)
  rw [h]
  rfl

/-! Order-independence machinery for the entries loop. -/

theorem accEq_refl (a : List (String × WireValue)) : accEq a a :=
  fun _ => rfl

theorem optAccEq_refl (o : Option (List (String × WireValue))) : optAccEq o o := by
  cases o with
  | none => trivial
  | some a => exact accEq_refl a

theorem optAccEq_symm {o1 o2 : Option (List (String × WireValue))}
    (h : optAccEq o1 o2) : optAccEq o2 o1 := by
  cases o1 <;> cases o2
  · trivial
  · exact h.elim
  · exact h.elim
  · exact fun k => (h k).symm

theorem optAccEq_trans {o1 o2 o3 : Option (List (String × WireValue))}
    (h12 : optAccEq o1 o2) (h23 : optAccEq o2 o3) : optAccEq o1 o3 := by
  cases o1 <;> cases o2 <;> cases o3 <;>
    first
      | trivial
      | exact h12.elim
      | exact h23.elim
      | exact fun k => (h12 k).trans (h23 k)

theorem optThen_congr {o1 o2 : Option (List (String × WireValue))}
    {f g : List (String × WireValue) → Option (List (String × WireValue))}
    (ho : optAccEq o1 o2) (hfg : ∀ a1 a2, accEq a1 a2 → optAccEq (f a1) (g a2)) :
    optAccEq (optThen o1 f) (optThen o2 g) := by
  cases o1 <;> cases o2
  · trivial
  · exact ho.elim
  · exact ho.elim
  · exact hfg _ _ ho

theorem optThen_assoc (o : Option (List (String × WireValue)))
    (f g : List (String × WireValue) → Option (List (String × WireValue))) :
    optThen (optThen o f) (g) = optThen o (fun a => optThen (f a) g) := by
  cases o <;> rfl

theorem lookupA_setA_setA (acc : List (String × WireValue)) (k : String)
    (w1 w2 : WireValue) (k2 : String) :
    lookupA (setA (setA acc k w1) k w2) k2 = lookupA (setA acc k w2) k2 := by
  rw [lookupA_setA, lookupA_setA, lookupA_setA]
  by_cases hk2 : k = k2 <;> simp [hk2]

theorem accEq_listsLen {n : Nat} {a b : List (String × WireValue)}
    (hab : accEq a b) (hb : listsLen n b) : listsLen n a :=
  fun k xs hx => hb k xs ((hab k).symm.trans hx)

theorem tupleNew_len (n : Int) (i v : String) {cur : Option WireValue}
    {w : WireValue}
    (hcur : ∀ xs, cur = some (WireValue.l xs) → xs.length = n.toNat)
    (h : tupleNew n i v cur = some w) :
    ∃ ys, w = WireValue.l ys ∧ ys.length = n.toNat := by
  cases cur with
  | none =>
      simp only [tupleNew] at h
      cases hpi : pyInt i with
      | none => rw [hpi] at h; cases h
      | some j =>
          rw [hpi] at h
          dsimp only at h
          cases hps : pyListSet (List.replicate n.toNat "") j v with
          | none => rw [hps] at h; cases h
          | some ys =>
              rw [hps] at h
              cases h
              refine ⟨ys, rfl, ?_⟩
              unfold pyListSet at hps
              cases hp : pyPos (List.replicate n.toNat "").length j with
              | none => rw [hp] at hps; cases hps
              | some pos =>
                  rw [hp] at hps
                  cases hps
                  simp
  | some w0 =>
      cases w0 with
      | s sv => cases h
      | l xs =>
          have hxs := hcur xs rfl
          simp only [tupleNew] at h
          cases hpi : pyInt i with
          | none => rw [hpi] at h; cases h
          | some j =>
              rw [hpi] at h
              dsimp only at h
              cases hps : pyListSet xs j v with
              | none => rw [hps] at h; cases h
              | some ys =>
                  rw [hps] at h
                  cases h
                  refine ⟨ys, rfl, ?_⟩
                  unfold pyListSet at hps
                  cases hp : pyPos xs.length j with
                  | none => rw [hp] at hps; cases hps
                  | some pos =>
                      rw [hp] at hps
                      cases hps
                      simp [hxs]

theorem convStep_t_spec (n : Int) (k i v : String) (acc : List (String × WireValue)) :
    optAccEq (convStep n acc (CatKey.t k i, v))
      ((tupleNew n i v (lookupA acc k)).map (fun w => setA acc k w)) := by
  simp only [convStep]
  cases hl : lookupA acc k with
  | none =>
      dsimp only [tupleNew]
      rw [lookupA_setA, if_pos rfl]
      dsimp only
      cases hpi : pyInt i with
      | none => trivial
      | some j =>
          dsimp only
          cases hps : pyListSet (List.replicate n.toNat "") j v with
          | none => trivial
          | some xs' =>
              dsimp only [Option.map_some']
              intro k2
              exact lookupA_setA_setA acc k _ _ k2
  | some w0 =>
      cases w0 with
      | s sv =>
          dsimp only
          rw [hl]
          trivial
      | l xs =>
          dsimp only [tupleNew]
          rw [hl]
          dsimp only
          cases hpi : pyInt i with
          | none => trivial
          | some j =>
              dsimp only
              cases hps : pyListSet xs j v with
              | none => trivial
              | some xs' =>
                  dsimp only [Option.map_some']
                  exact accEq_refl _

theorem convStep_preserves_len (n : Int) (kv : CatKey × String)
    {acc acc2 : List (String × WireValue)} (hlen : listsLen n.toNat acc)
    (h : convStep n acc kv = some acc2) : listsLen n.toNat acc2 := by
  obtain ⟨key, v⟩ := kv
  cases key with
  | s k =>
      simp only [convStep] at h
      by_cases hk : k = ""
      · rw [if_pos hk] at h
        cases h
        exact hlen
      · rw [if_neg hk] at h
        cases h
        intro k2 xs hx
        rw [lookupA_setA] at hx
        by_cases hk2 : k = k2
        · rw [if_pos hk2] at hx
          exact absurd hx (by simp)
        · rw [if_neg hk2] at hx
          exact hlen k2 xs hx
  | t k i =>
      have hspec := convStep_t_spec n k i v acc
      rw [h] at hspec
      cases htn : tupleNew n i v (lookupA acc k) with
      | none => rw [htn] at hspec; exact hspec.elim
      | some w =>
          rw [htn] at hspec
          dsimp only [Option.map_some'] at hspec
          obtain ⟨ys, hw, hys⟩ := tupleNew_len n i v
            (fun xs hx => hlen k xs hx) htn
          subst hw
          refine accEq_listsLen hspec ?_
          intro k2 xs hx
          rw [lookupA_setA] at hx
          by_cases hk2 : k = k2
          · rw [if_pos hk2] at hx
            cases hx
            exact hys
          · rw [if_neg hk2] at hx
            exact hlen k2 xs hx

theorem lookupA_setA_swap (acc : List (String × WireValue)) (a b : String)
    (wa wb : WireValue) (hab : a ≠ b) (k2 : String) :
    lookupA (setA (setA acc a wa) b wb) k2
      = lookupA (setA (setA acc b wb) a wa) k2 := by
  rw [lookupA_setA, lookupA_setA, lookupA_setA, lookupA_setA]
  by_cases h1 : b = k2 <;> by_cases h2 : a = k2
  · exact absurd (h2.trans h1.symm) hab
  · simp [h1, h2]
  · simp [h1, h2]
  · simp [h1, h2]

theorem convStep_congr (n : Int) (kv : CatKey × String)
    {a b : List (String × WireValue)} (hab : accEq a b) :
    optAccEq (convStep n a kv) (convStep n b kv) := by
  obtain ⟨key, v⟩ := kv
  cases key with
  | s k =>
      by_cases hk : k = ""
      · simp only [convStep, if_pos hk]
        exact hab
      · simp only [convStep, if_neg hk]
        intro k2
        rw [lookupA_setA, lookupA_setA]
        by_cases hk2 : k = k2
        · rw [if_pos hk2, if_pos hk2]
        · rw [if_neg hk2, if_neg hk2]
          exact hab k2
  | t k i =>
      refine optAccEq_trans (convStep_t_spec n k i v a) ?_
      refine optAccEq_trans ?_ (optAccEq_symm (convStep_t_spec n k i v b))
      rw [hab k]
      cases tupleNew n i v (lookupA b k) with
      | none => trivial
      | some w =>
          dsimp only [Option.map_some']
          intro k2
          rw [lookupA_setA, lookupA_setA]
          by_cases hk2 : k = k2
          · rw [if_pos hk2, if_pos hk2]
          · rw [if_neg hk2, if_neg hk2]
            exact hab k2

theorem tupleNew_list (n : Int) (i v : String) (xs : List String)
    (hxs : xs.length = n.toNat) :
    tupleNew n i v (some (WireValue.l xs))
      = (posOfIdx n.toNat i).map (fun p => WireValue.l (xs.set p v)) := by
  simp only [tupleNew, posOfIdx]
  cases hpi : pyInt i with
  | none => rfl
  | some j =>
      simp only [pyListSet, hxs, Option.map_map]
      rfl

theorem tupleNew_none_eq (n : Int) (i v : String) :
    tupleNew n i v none
      = (posOfIdx n.toNat i).map
          (fun p => WireValue.l ((List.replicate n.toNat "").set p v)) := by
  simp only [tupleNew, posOfIdx]
  cases hpi : pyInt i with
  | none => rfl
  | some j =>
      simp only [pyListSet, List.length_replicate, Option.map_map]
      rfl

theorem convStep_comm_ss (n : Int) (k v k' v' : String)
    (acc : List (String × WireValue)) (hkk : k ≠ k') :
    optAccEq
      (optThen (convStep n acc (CatKey.s k, v))
        (fun a => convStep n a (CatKey.s k', v')))
      (optThen (convStep n acc (CatKey.s k', v'))
        (fun a => convStep n a (CatKey.s k, v))) := by
  by_cases hk : k = "" <;> by_cases hk' : k' = ""
  · exact absurd (hk.trans hk'.symm) hkk
  · have hs : convStep n acc (CatKey.s k, v) = some acc := by simp [convStep, hk]
    have hs' : ∀ a : List (String × WireValue),
        convStep n a (CatKey.s k', v') = some (setA a k' (WireValue.s v')) :=
      fun a => by simp [convStep, hk']
    rw [hs, hs' acc]
    show optAccEq (convStep n acc (CatKey.s k', v'))
      (convStep n (setA acc k' (WireValue.s v')) (CatKey.s k, v))
    rw [hs' acc,
      show convStep n (setA acc k' (WireValue.s v')) (CatKey.s k, v)
        = some (setA acc k' (WireValue.s v')) from by simp [convStep, hk]]
    exact accEq_refl _
  · have hs : ∀ a : List (String × WireValue),
        convStep n a (CatKey.s k, v) = some (setA a k (WireValue.s v)) :=
      fun a => by simp [convStep, hk]
    have hs' : convStep n acc (CatKey.s k', v') = some acc := by simp [convStep, hk']
    rw [hs acc, hs']
    show optAccEq (convStep n (setA acc k (WireValue.s v)) (CatKey.s k', v'))
      (convStep n acc (CatKey.s k, v))
    rw [hs acc,
      show convStep n (setA acc k (WireValue.s v)) (CatKey.s k', v')
        = some (setA acc k (WireValue.s v)) from by simp [convStep, hk']]
    exact accEq_refl _
  · have hs : ∀ a : List (String × WireValue),
        convStep n a (CatKey.s k, v) = some (setA a k (WireValue.s v)) :=
      fun a => by simp [convStep, hk]
    have hs' : ∀ a : List (String × WireValue),
        convStep n a (CatKey.s k', v') = some (setA a k' (WireValue.s v')) :=
      fun a => by simp [convStep, hk']
    rw [hs acc, hs' acc]
    show optAccEq (convStep n (setA acc k (WireValue.s v)) (CatKey.s k', v'))
      (convStep n (setA acc k' (WireValue.s v')) (CatKey.s k, v))
    rw [hs' (setA acc k (WireValue.s v)), hs (setA acc k' (WireValue.s v'))]
    intro k2
    exact lookupA_setA_swap acc k k' (WireValue.s v) (WireValue.s v') hkk k2

theorem convStep_comm_st (n : Int) (k v k' i' v' : String)
    (acc : List (String × WireValue)) (hkk : k ≠ k') :
    optAccEq
      (optThen (convStep n acc (CatKey.s k, v))
        (fun a => convStep n a (CatKey.t k' i', v')))
      (optThen (convStep n acc (CatKey.t k' i', v'))
        (fun a => convStep n a (CatKey.s k, v))) := by
  by_cases hk : k = ""
  · have hs : ∀ a : List (String × WireValue),
        convStep n a (CatKey.s k, v) = some a :=
      fun a => by simp [convStep, hk]
    rw [hs acc]
    show optAccEq (convStep n acc (CatKey.t k' i', v'))
      (optThen (convStep n acc (CatKey.t k' i', v'))
        (fun a => convStep n a (CatKey.s k, v)))
    cases hst : convStep n acc (CatKey.t k' i', v') with
    | none => trivial
    | some a1 =>
        show optAccEq (some a1) (convStep n a1 (CatKey.s k, v))
        rw [hs a1]
        exact accEq_refl a1
  · have hs : ∀ a : List (String × WireValue),
        convStep n a (CatKey.s k, v) = some (setA a k (WireValue.s v)) :=
      fun a => by simp [convStep, hk]
    rw [hs acc]
    show optAccEq (convStep n (setA acc k (WireValue.s v)) (CatKey.t k' i', v'))
      (optThen (convStep n acc (CatKey.t k' i', v'))
        (fun a => convStep n a (CatKey.s k, v)))
    have h1 := convStep_t_spec n k' i' v' (setA acc k (WireValue.s v))
    rw [lookupA_setA, if_neg hkk] at h1
    refine optAccEq_trans h1 ?_
    refine optAccEq_trans ?_
      (optAccEq_symm (optThen_congr (convStep_t_spec n k' i' v' acc)
        (fun a1 a2 ha => convStep_congr n (CatKey.s k, v) ha)))
    cases hT : tupleNew n i' v' (lookupA acc k') with
    | none => trivial
    | some w =>
        dsimp only [Option.map_some']
        show optAccEq (some (setA (setA acc k (WireValue.s v)) k' w))
          (convStep n (setA acc k' w) (CatKey.s k, v))
        rw [hs (setA acc k' w)]
        intro k2
        exact lookupA_setA_swap acc k k' (WireValue.s v) w hkk k2

theorem optThen_tt_canon (n : Int) (k i v k' i' v' : String)
    (acc : List (String × WireValue)) (hkk : ¬k = k') :
    optAccEq
      (optThen (convStep n acc (CatKey.t k i, v))
        (fun a => convStep n a (CatKey.t k' i', v')))
      (match tupleNew n i v (lookupA acc k) with
       | none => none
       | some wx =>
           match tupleNew n i' v' (lookupA acc k') with
           | none => none
           | some wy => some (setA (setA acc k wx) k' wy)) := by
  refine optAccEq_trans
    (optThen_congr (convStep_t_spec n k i v acc)
      (fun a1 a2 ha => convStep_congr n (CatKey.t k' i', v') ha)) ?_
  cases hTx : tupleNew n i v (lookupA acc k) with
  | none => trivial
  | some wx =>
      dsimp only [Option.map_some']
      show optAccEq (convStep n (setA acc k wx) (CatKey.t k' i', v')) _
      refine optAccEq_trans (convStep_t_spec n k' i' v' (setA acc k wx)) ?_
      rw [lookupA_setA, if_neg hkk]
      cases hTy : tupleNew n i' v' (lookupA acc k') with
      | none => trivial
      | some wy =>
          dsimp only [Option.map_some']
          exact accEq_refl _

theorem optThen_tt_canon_same (n : Int) (k i v i' v' : String)
    (acc : List (String × WireValue)) :
    optAccEq
      (optThen (convStep n acc (CatKey.t k i, v))
        (fun a => convStep n a (CatKey.t k i', v')))
      (match tupleNew n i v (lookupA acc k) with
       | none => none
       | some wx =>
           match tupleNew n i' v' (some wx) with
           | none => none
           | some wy => some (setA acc k wy)) := by
  refine optAccEq_trans
    (optThen_congr (convStep_t_spec n k i v acc)
      (fun a1 a2 ha => convStep_congr n (CatKey.t k i', v') ha)) ?_
  cases hTx : tupleNew n i v (lookupA acc k) with
  | none => trivial
  | some wx =>
      dsimp only [Option.map_some']
      show optAccEq (convStep n (setA acc k wx) (CatKey.t k i', v')) _
      refine optAccEq_trans (convStep_t_spec n k i' v' (setA acc k wx)) ?_
      rw [lookupA_setA, if_pos rfl]
      cases hTy : tupleNew n i' v' (some wx) with
      | none => trivial
      | some wy =>
          dsimp only [Option.map_some']
          intro k2
          exact lookupA_setA_setA acc k wx wy k2

theorem tt_same_core (n : Int) (k i v i' v' : String)
    (acc : List (String × WireValue)) (xs : List String)
    (hxs : xs.length = n.toNat)
    (hpp : posOfIdx n.toNat i ≠ posOfIdx n.toNat i') :
    optAccEq
      (match (posOfIdx n.toNat i).map (fun p => WireValue.l (xs.set p v)) with
       | none => none
       | some wx =>
           match tupleNew n i' v' (some wx) with
           | none => none
           | some wy => some (setA acc k wy))
      (match (posOfIdx n.toNat i').map (fun p => WireValue.l (xs.set p v')) with
       | none => none
       | some wx =>
           match tupleNew n i v (some wx) with
           | none => none
           | some wy => some (setA acc k wy)) := by
  cases hpx : posOfIdx n.toNat i with
  | none =>
      cases hpy : posOfIdx n.toNat i' with
      | none => trivial
      | some p' =>
          dsimp only [Option.map_some']
          rw [tupleNew_list n i v (xs.set p' v') (by simp [hxs]), hpx]
          trivial
  | some p =>
      cases hpy : posOfIdx n.toNat i' with
      | none =>
          dsimp only [Option.map_some']
          rw [tupleNew_list n i' v' (xs.set p v) (by simp [hxs]), hpy]
          trivial
      | some p' =>
          have hpne : p ≠ p' := fun h => hpp (by rw [hpx, hpy, h])
          dsimp only [Option.map_some']
          rw [tupleNew_list n i' v' (xs.set p v) (by simp [hxs]), hpy,
              tupleNew_list n i v (xs.set p' v') (by simp [hxs]), hpx]
          dsimp only [Option.map_some']
          have hsc : (xs.set p v).set p' v' = (xs.set p' v').set p v :=
            List.set_comm v v' xs hpne
          rw [hsc]
          exact accEq_refl _

theorem convStep_comm_tt (n : Int) (k i v k' i' v' : String)
    (acc : List (String × WireValue))
    (hcompat : k = k' → posOfIdx n.toNat i ≠ posOfIdx n.toNat i')
    (hlen : listsLen n.toNat acc) :
    optAccEq
      (optThen (convStep n acc (CatKey.t k i, v))
        (fun a => convStep n a (CatKey.t k' i', v')))
      (optThen (convStep n acc (CatKey.t k' i', v'))
        (fun a => convStep n a (CatKey.t k i, v))) := by
  by_cases hkk : k = k'
  · subst hkk
    have hpp := hcompat rfl
    refine optAccEq_trans (optThen_tt_canon_same n k i v i' v' acc)
      (optAccEq_trans ?_ (optAccEq_symm (optThen_tt_canon_same n k i' v' i v acc)))
    cases hcur : lookupA acc k with
    | some w0 =>
        cases w0 with
        | s sv => trivial
        | l xs =>
            rw [tupleNew_list n i v xs (hlen k xs hcur),
                tupleNew_list n i' v' xs (hlen k xs hcur)]
            exact tt_same_core n k i v i' v' acc xs (hlen k xs hcur) hpp
    | none =>
        rw [tupleNew_none_eq n i v, tupleNew_none_eq n i' v']
        exact tt_same_core n k i v i' v' acc (List.replicate n.toNat "")
          (by simp) hpp
  · have c1 := optThen_tt_canon n k i v k' i' v' acc hkk
    have c2 := optThen_tt_canon n k' i' v' k i v acc (fun hh => hkk hh.symm)
    refine optAccEq_trans c1 (optAccEq_trans ?_ (optAccEq_symm c2))
    cases hTx : tupleNew n i v (lookupA acc k) with
    | none =>
        cases hTy : tupleNew n i' v' (lookupA acc k') with
        | none => trivial
        | some wy => trivial
    | some wx =>
        cases hTy : tupleNew n i' v' (lookupA acc k') with
        | none => trivial
        | some wy =>
            dsimp only
            intro k2
            exact lookupA_setA_swap acc k k' wx wy hkk k2

theorem convStep_comm (n : Int) (x y : CatKey × String)
    (acc : List (String × WireValue)) (hne : x.1 ≠ y.1)
    (hcompat : keyCompat n.toNat x.1 y.1) (hlen : listsLen n.toNat acc) :
    optAccEq
      (optThen (convStep n acc x) (fun a => convStep n a y))
      (optThen (convStep n acc y) (fun a => convStep n a x)) := by
  obtain ⟨kx, vx⟩ := x
  obtain ⟨ky, vy⟩ := y
  cases kx with
  | s k =>
      cases ky with
      | s k' => exact convStep_comm_ss n k vx k' vy acc (fun hh => hne (by rw [hh]))
      | t k' i' => exact convStep_comm_st n k vx k' i' vy acc hcompat
  | t k i =>
      cases ky with
      | s k' =>
          exact optAccEq_symm
            (convStep_comm_st n k' vy k i vx acc (fun hh => hcompat hh.symm))
      | t k' i' => exact convStep_comm_tt n k i vx k' i' vy acc hcompat hlen

theorem convFold_congr (n : Int) : ∀ (l : List (CatKey × String))
    {a b : List (String × WireValue)}, accEq a b →
    optAccEq (convFold n l a) (convFold n l b)
  | [], a, b, hab => hab
  | kv :: rest, a, b, hab => by
      simp only [convFold]
      have hstep := convStep_congr n kv hab
      cases hsa : convStep n a kv with
      | none =>
          cases hsb : convStep n b kv with
          | none => trivial
          | some b1 => rw [hsa, hsb] at hstep; exact hstep.elim
      | some a1 =>
          cases hsb : convStep n b kv with
          | none => rw [hsa, hsb] at hstep; exact hstep.elim
          | some b1 =>
              rw [hsa, hsb] at hstep
              exact convFold_congr n rest hstep

theorem keyCompat_symm (n : Nat) : ∀ {a b : CatKey}, keyCompat n a b → keyCompat n b a
  | CatKey.s _, CatKey.s _, _ => True.intro
  | CatKey.s _, CatKey.t _ _, h => fun hh => h hh.symm
  | CatKey.t _ _, CatKey.s _, h => fun hh => h hh.symm
  | CatKey.t _ _, CatKey.t _ _, h => fun hh hp => h hh.symm hp.symm

theorem lookupA_perm : ∀ {l1 l2 : List (CatKey × String)}, l1.Perm l2 →
    (l1.map Prod.fst).Nodup → ∀ k, lookupA l1 k = lookupA l2 k := by
  intro l1 l2 hperm
  induction hperm with
  | nil => intro _ _; rfl
  | cons x hp ih =>
      intro hnd k
      obtain ⟨kx, vx⟩ := x
      simp only [lookupA]
      by_cases hk : kx = k
      · rw [if_pos hk, if_pos hk]
      · rw [if_neg hk, if_neg hk]
        exact ih (List.nodup_cons.mp hnd).2 k
  | swap x y l =>
      intro hnd k
      obtain ⟨kx, vx⟩ := x
      obtain ⟨ky, vy⟩ := y
      have hxy : ky ≠ kx := by
        have h1 := (List.nodup_cons.mp hnd).1
        intro hh
        exact h1 (by rw [hh]; exact List.mem_cons_self _ _)
      simp only [lookupA]
      by_cases h1 : ky = k <;> by_cases h2 : kx = k
      · exact absurd (h1.trans h2.symm) hxy
      · simp [h1, h2]
      · simp [h1, h2]
      · simp [h1, h2]
  | trans h12 h23 ih12 ih23 =>
      intro hnd k
      have hnd2 := ((h12.map Prod.fst).nodup_iff).mp hnd
      exact (ih12 hnd k).trans (ih23 hnd2 k)

theorem convFold_perm (n : Int) : ∀ {l1 l2 : List (CatKey × String)}, l1.Perm l2 →
    ∀ acc : List (String × WireValue), (l1.map Prod.fst).Nodup →
    List.Pairwise (fun a b : CatKey × String => keyCompat n.toNat a.1 b.1) l1 →
    listsLen n.toNat acc →
    optAccEq (convFold n l1 acc) (convFold n l2 acc) := by
  intro l1 l2 hperm
  induction hperm with
  | nil => intro acc _ _ _; exact optAccEq_refl _
  | cons x hp ih =>
      intro acc hnd hpw hlen
      simp only [convFold]
      cases hs : convStep n acc x with
      | none => trivial
      | some a1 =>
          exact ih a1 (List.nodup_cons.mp hnd).2 (List.pairwise_cons.mp hpw).2
            (convStep_preserves_len n x hlen hs)
  | swap x y l =>
      intro acc hnd hpw hlen
      have hyx : y.1 ≠ x.1 := by
        have h1 := (List.nodup_cons.mp hnd).1
        intro hh
        exact h1 (by rw [hh]; exact List.mem_cons_self _ _)
      have hcomp : keyCompat n.toNat y.1 x.1 :=
        (List.pairwise_cons.mp hpw).1 x (List.mem_cons_self _ _)
      have hcomm := convStep_comm n y x acc hyx hcomp hlen
      show optAccEq
        (optThen (convStep n acc y) (fun a1 => optThen (convStep n a1 x) (convFold n l)))
        (optThen (convStep n acc x) (fun a1 => optThen (convStep n a1 y) (convFold n l)))
      rw [← optThen_assoc, ← optThen_assoc]
      exact optThen_congr hcomm (fun a1 a2 ha => convFold_congr n l ha)
  | trans h12 h23 ih12 ih23 =>
      intro acc hnd hpw hlen
      have hnd2 := ((h12.map Prod.fst).nodup_iff).mp hnd
      have hpw2 := (h12.pairwise_iff
        (fun hab => keyCompat_symm n.toNat hab)).mp hpw
      exact optAccEq_trans (ih12 acc hnd hpw hlen) (ih23 acc hnd2 hpw2 hlen)

/-- Claim C8 (amended): the converter is deterministic, and on catalogs whose
entry lists are permutations of one another — with pairwise-distinct keys, no
base occurring both plain and pluralized, and no two pluralized entries of a
base resolving to the same plural position — conversion is order-independent:
with the same fallback, the two runs both raise or both succeed with equal
plural expressions, map-equal catalog mappings and equal fallbacks.  Equality
of the entries merely as an unordered mapping does not suffice in general
(see the counterexample). -/
theorem convert_respects_entry_perm (e1 e2 : List (CatKey × String))
    (fb : Option Catalog) (n : Int) (p : String)
    (hperm : e1.Perm e2) (hnd : (e1.map Prod.fst).Nodup)
    (hparse : parsePluralForms (lookupA e1 (CatKey.s "")) = some (n, p))
    (hpw : List.Pairwise (fun a b : CatKey × String => keyCompat n.toNat a.1 b.1) e1) :
    wireOptEquiv (convert_translations_to_dict (Catalog.withFallback e1 fb))
      (convert_translations_to_dict (Catalog.withFallback e2 fb)) := by
  have hlook := lookupA_perm hperm hnd (CatKey.s "")
  have hparse2 : parsePluralForms (lookupA e2 (CatKey.s "")) = some (n, p) := by
    rw [← hlook]
    exact hparse
  have hfold := convFold_perm n hperm [] hnd hpw
    (fun k xs hx => Option.noConfusion hx)
  cases fb with
  | none =>
      rw [show Catalog.withFallback e1 none = Catalog.base e1 from rfl,
          show Catalog.withFallback e2 none = Catalog.base e2 from rfl,
          convert_base_eq, convert_base_eq, hparse, hparse2]
      dsimp only
      cases h1 : convFold n e1 [] with
      | none =>
          cases h2 : convFold n e2 [] with
          | none => trivial
          | some c2 => rw [h1, h2] at hfold; exact hfold.elim
      | some c1 =>
          cases h2 : convFold n e2 [] with
          | none => rw [h1, h2] at hfold; exact hfold.elim
          | some c2 =>
              rw [h1, h2] at hfold
              exact ⟨rfl, hfold, rfl⟩
  | some f =>
      rw [show Catalog.withFallback e1 (some f) = Catalog.chain e1 f from rfl,
          show Catalog.withFallback e2 (some f) = Catalog.chain e2 f from rfl,
          convert_chain_eq, convert_chain_eq, hparse, hparse2]
      dsimp only
      cases hcw : convert_translations_to_dict f with
      | none => trivial
      | some wf =>
          dsimp only
          cases h1 : convFold n e1 [] with
          | none =>
              cases h2 : convFold n e2 [] with
              | none => trivial
              | some c2 => rw [h1, h2] at hfold; exact hfold.elim
          | some c1 =>
              cases h2 : convFold n e2 [] with
              | none => rw [h1, h2] at hfold; exact hfold.elim
              | some c2 =>
                  rw [h1, h2] at hfold
                  exact ⟨rfl, hfold, rfl⟩

theorem convert_respects_entry_perm_witness :
    wireOptEquiv (convert_translations_to_dict (Catalog.withFallback entriesW1 none))
      (convert_translations_to_dict (Catalog.withFallback entriesW2 none)) :=
  convert_respects_entry_perm entriesW1 entriesW2 none 2 "(n == 1) ? 0 : 1"
    (by decide) (by decide) rfl (by decide)

end I18nUtils
